import Mathlib

/-!
Verification of the trackpad screen-recorder core against its specification.

The definitions below are a shallow embedding of the Rust sources
`src-tauri/src/recorder.rs` and `src-tauri/src/lib.rs`:

* machine floating-point numbers are modelled as exact rationals (`ℚ`);
* `Instant` timestamps are rationals (seconds) or naturals (milliseconds,
  matching `as_millis` truncation);
* byte buffers are `List ℕ`;
* fallible slice accesses are modelled with `Option`, so that an
  out-of-bounds access corresponds to a `none` result;
* comparisons of the form `sqrt (dx^2 + dy^2) < r` (with `r > 0`) are
  modelled by the equivalent exact comparison `dx^2 + dy^2 < r^2`.
-/

/-! ## Capture Pacer (`recorder.rs`, `CaptureHandler::on_frame_arrived`)

State of the pacing part of `CaptureHandler`: `recording_start`,
`frames_written` and `target_fps`.  Frame pixel handling is modelled
separately below.  On each frame arrival the handler sets
`recording_start` on the first frame, computes
`expected_frames = ceil(elapsed * target_fps)` and tops `frames_written`
up to `expected_frames` (the `while` loop writing one frame per missing
slot is equivalent to taking the max). -/

structure PacerState where
  recordingStart : Option ℚ
  framesWritten : ℕ
  targetFps : ℚ
  deriving Repr, DecidableEq

def initPacer (fps : ℚ) : PacerState :=
  { recordingStart := none, framesWritten := 0, targetFps := fps }

/-- One invocation of `on_frame_arrived` at wall-clock instant `now`
(seconds), restricted to the pacing logic of lines 166–179. -/
def pacerStep (st : PacerState) (now : ℚ) : PacerState :=
  let start := st.recordingStart.getD now
  let elapsed := now - start
  let expected : ℕ := (⌈elapsed * st.targetFps⌉).toNat
  { st with recordingStart := some start,
            framesWritten := max st.framesWritten expected }

/-- Number of frames emitted (written to the encoder sink) by a single
`on_frame_arrived` invocation: the `while` loop runs
`expected - frames_written` times when positive. -/
def pacerEmitted (st : PacerState) (now : ℚ) : ℕ :=
  (pacerStep st now).framesWritten - st.framesWritten

def runPacer (st : PacerState) (arrivals : List ℚ) : PacerState :=
  arrivals.foldl pacerStep st

/-! ## Stride normalization (`recorder.rs`, lines 139–164)

`onFrameCopy` models the copy of one captured frame into the tight
`last_frame` buffer.  `width`/`height` are the frame's dimensions,
`fw`/`fh` the handler's (`frame_width`/`frame_height`).  All buffer
accesses are checked: a `none` result means the Rust code would have
sliced out of bounds (or divided by a zero height). -/

/-- Checked write `dst[start .. start+seg.length] := seg`, or `none` if the write
would fall outside `dst`. -/
def writeSeg (dst : List ℕ) (start : ℕ) (seg : List ℕ) : Option (List ℕ) :=
  if start + seg.length ≤ dst.length then
    some (dst.take start ++ seg ++ dst.drop (start + seg.length))
  else none

/-- The row-by-row copy loop: processes rows `0 .. n-1`.  A row is
copied only when it lies entirely inside the source buffer (the guard
`src_start + copy_len <= src_data.len()` of line 159); the destination
write is checked. -/
def copyRows (src : List ℕ) (rowPitch tightLen : ℕ) : ℕ → List ℕ → Option (List ℕ)
  | 0, dst => some dst
  | n + 1, dst => do
      let d ← copyRows src rowPitch tightLen n dst
      if n * rowPitch + tightLen ≤ src.length then
        writeSeg d (n * tightLen) ((src.drop (n * rowPitch)).take tightLen)
      else
        some d

/-- The whole per-frame copy of `on_frame_arrived` lines 139–164:
compute `row_pitch = src.len() / height`, re-size `last_frame` to
`fw*fh*4` if needed, then either the single-pass fast path or the
row-by-row path. -/
def onFrameCopy (src : List ℕ) (width height fw fh : ℕ) (lastFrame : List ℕ) :
    Option (List ℕ) :=
  if height = 0 then none
  else
    let rowPitch := src.length / height
    let tightPitch := width * 4
    let frameSize := fw * fh * 4
    let dst := if lastFrame.length ≠ frameSize then List.replicate frameSize 0 else lastFrame
    if rowPitch = tightPitch ∧ width = fw ∧ height = fh then
      if frameSize ≤ src.length then some ((src.drop 0).take frameSize) else none
    else
      copyRows src rowPitch (fw * 4) fh dst

/-- The fast-path condition of line 152. -/
def fastPathCond (src : List ℕ) (width height fw fh : ℕ) : Prop :=
  src.length / height = width * 4 ∧ width = fw ∧ height = fh

/-! ## Recorder global state and commands (`recorder.rs`)

The `lazy_static!` globals plus the `RecorderState.is_recording` flag,
bundled into one structure.  Times are milliseconds (`Instant`
differences truncated by `as_millis`). -/

structure ClickEvent where
  timestampMs : ℕ
  x : ℚ
  y : ℚ
  isDoubleClick : Bool
  isTripleClick : Bool
  deriving Repr, DecidableEq

structure CursorPosition where
  timestampMs : ℕ
  x : ℚ
  y : ℚ
  deriving Repr, DecidableEq

structure RecorderGlobals where
  clickEvents : List ClickEvent
  cursorPositions : List CursorPosition
  recordingStartTime : Option ℕ
  lastClick : Option (ℕ × ℚ × ℚ)
  lastTwoClicks : List (ℕ × ℚ × ℚ)
  lastZoomTrigger : Option ℕ
  lastCursorSample : Option ℕ
  screenSize : ℕ × ℕ
  captureBounds : ℤ × ℤ × ℕ × ℕ
  isRecording : Bool
  deriving Repr, DecidableEq

/-- The triple-click test of `spawn_mouse_listener_v2` lines 363–389:
the two remembered clicks and the current one qualify when the current
click is < 800 ms after the first, < 400 ms after the second, and within
distance 0.05 of each of them.  (`sqrt d < 0.05` is modelled as
`d < 0.05^2 = 1/400`.)  Note the first and second remembered clicks are
not compared with each other. -/
def tripleCond (lastTwo : List (ℕ × ℚ × ℚ)) (now : ℕ) (nx ny : ℚ) : Bool :=
  if h : 2 ≤ lastTwo.length then
    let first := lastTwo.get ⟨lastTwo.length - 2, by omega⟩
    let second := lastTwo.get ⟨lastTwo.length - 1, by omega⟩
    decide (now - first.1 < 800) && decide (now - second.1 < 400) &&
      decide ((nx - first.2.1) ^ 2 + (ny - first.2.2) ^ 2 < 1 / 400) &&
      decide ((nx - second.2.1) ^ 2 + (ny - second.2.2) ^ 2 < 1 / 400)
  else false

/-- The double-click test of lines 392–403 (< 500 ms, distance < 0.05). -/
def doubleCond (lastClick : Option (ℕ × ℚ × ℚ)) (now : ℕ) (nx ny : ℚ) : Bool :=
  match lastClick with
  | none => false
  | some (lt, lx, ly) =>
      decide (now - lt < 500) && decide ((nx - lx) ^ 2 + (ny - ly) ^ 2 < 1 / 400)

/-- Cooldown test of lines 411–418: a trigger is allowed when there is
no previous trigger or at least 3000 ms have passed since it. -/
def cooldownOk (lastZoom : Option ℕ) (now : ℕ) : Bool :=
  match lastZoom with
  | none => true
  | some lz => decide (3000 ≤ now - lz)

/-- One left-button-press event at instant `now` (ms) with raw screen
coordinates `(mx, my)`, lines 333–444 of `spawn_mouse_listener_v2`. -/
def processClick (g : RecorderGlobals) (now : ℕ) (mx my : ℚ) : RecorderGlobals :=
  if !g.isRecording then g
  else
    let (cx, cy, cw, ch) := g.captureBounds
    let nx := (mx - (cx : ℚ)) / (cw : ℚ)
    let ny := (my - (cy : ℚ)) / (ch : ℚ)
    if nx < 0 ∨ 1 < nx ∨ ny < 0 ∨ 1 < ny then g
    else
      let timestampMs := match g.recordingStartTime with
        | some start => now - start
        | none => 0
      let isTriple := tripleCond g.lastTwoClicks now nx ny
      -- push current click into the history, keeping only the last two
      let pushed := g.lastTwoClicks ++ [(now, nx, ny)]
      let lastTwo' := if 2 < pushed.length then pushed.tail else pushed
      let isDouble := doubleCond g.lastClick now nx ny
      let g' := { g with lastTwoClicks := lastTwo', lastClick := some (now, nx, ny) }
      if isTriple then
        if cooldownOk g.lastZoomTrigger now then
          { g' with lastZoomTrigger := some now,
                    lastTwoClicks := [],
                    clickEvents := g.clickEvents ++
                      [{ timestampMs := timestampMs, x := nx, y := ny,
                         isDoubleClick := isDouble, isTripleClick := true }] }
        else g'
      else g'

/-- Model of `start_recording` (lines 461–575).  The success path clears the
logs, resets the click/zoom tracking, stamps `RECORDING_START_TIME`,
stores the screen size and capture bounds resolved from the target, and
raises the recording flag; the capture/ffmpeg plumbing is external.
Returns the command result together with the resulting global state. -/
def startRecording (g : RecorderGlobals) (nowMs : ℕ) (screen : ℕ × ℕ)
    (bounds : ℤ × ℤ × ℕ × ℕ) : Except String Unit × RecorderGlobals :=
  if g.isRecording then (Except.error "Already recording", g)
  else
    (Except.ok (),
      { clickEvents := []
        cursorPositions := []
        recordingStartTime := some nowMs
        lastClick := none
        lastTwoClicks := []
        lastZoomTrigger := none
        lastCursorSample := none
        screenSize := screen
        captureBounds := bounds
        isRecording := true })

/-- Model of `stop_recording` (lines 577–585). -/
def stopRecording (g : RecorderGlobals) : Except String Unit × RecorderGlobals :=
  if !g.isRecording then (Except.error "Not recording", g)
  else
    (Except.ok (), { g with isRecording := false, recordingStartTime := none })

/-! ## Export data model (`lib.rs`) -/

structure ZoomEffect where
  startTime : ℚ
  endTime : ℚ
  scale : ℚ
  targetX : ℚ
  targetY : ℚ
  easing : Option String
  deriving Repr, DecidableEq

/-- Structure `CursorFrame` of `lib.rs` (identical fields to the recorder's
`CursorPosition`, deserialized on the export path). -/
structure CursorFrame where
  timestampMs : ℕ
  x : ℚ
  y : ℚ
  deriving Repr, DecidableEq

/-! ## Expression assembler (`build_interpolation_expr`, lines 384–439)

The generated ffmpeg expression text is modelled as an AST with exact
rational constants (the decimal formatting of `format!` is treated as
serialization); `FExpr.evalAt` is ffmpeg's evaluation semantics for the
constructs the generator emits. -/

inductive FExpr where
  | const (v : ℚ)
  | ifLt (c : ℚ) (eThen eElse : FExpr)
  | seg (v1 dv t1 dt : ℚ)
  deriving Repr, DecidableEq

/-- Evaluation semantics of ffmpeg at time `t`: `if(lt(t,c),a,b)` and the emitted
segment text `v1+dv*min(1,max(0,(t-t1)/dt))`. -/
def FExpr.evalAt : FExpr → ℚ → ℚ
  | .const v, _ => v
  | .ifLt c a b, t => if t < c then a.evalAt t else b.evalAt t
  | .seg v1 dv t1 dt, t => v1 + dv * min 1 (max 0 ((t - t1) / dt))

/-- One iteration of the loop of lines 407–432: wrap the accumulated
expression in `if(lt(t,t2),lerp,·)` for the segment `p = (kf_i, kf_i+1)`
(segments with `dt ≤ 0` are skipped). -/
def segStep (p : (ℚ × ℚ) × (ℚ × ℚ)) (acc : FExpr) : FExpr :=
  if p.2.1 - p.1.1 ≤ 0 then acc
  else .ifLt p.2.1 (.seg p.1.2 (p.2.2 - p.1.2) p.1.1 (p.2.1 - p.1.1)) acc

/-- The loop of lines 403–432: start from the last keyframe's value and
wrap one segment test per adjacent keyframe pair, iterating the segments
from last to first. -/
def coreExpr (kfs : List (ℚ × ℚ)) : FExpr :=
  (kfs.zip kfs.tail).foldr segStep (.const (kfs.getLastD (0, 0)).2)

/-- Model of `build_interpolation_expr` (lines 384–439). -/
def buildInterpolationExpr (kfs : List (ℚ × ℚ)) : FExpr :=
  match kfs with
  | [] => .const 0
  | [k] => .const k.2
  | k0 :: _ :: _ => .ifLt k0.1 (.const k0.2) (coreExpr kfs)

/-- Modelled from the spec: the reference sorted-keyframe-table
interpolation evaluator of §4.6 — constant extrapolation before the
first and after the last keyframe, linear interpolation within each
segment.  Used only to state the refinement claim about
`buildInterpolationExpr`. -/
def specInterp : List (ℚ × ℚ) → ℚ → ℚ
  | [], _ => 0
  | [k], _ => k.2
  | a :: b :: rest, t =>
      if t < a.1 then a.2
      else if t < b.1 then a.2 + (b.2 - a.2) * ((t - a.1) / (b.1 - a.1))
      else specInterp (b :: rest) t

/-! ## Cursor overlay keyframes (`build_cursor_overlay_on_video`,
lines 291–378): subsample the cursor log with
`step = max(len/100, 1)`, drop samples before the trim start, convert to
clamped pixel keyframes. -/

def cursorOverlayKeyframes (positions : List CursorFrame)
    (videoWidth cursorSize : ℤ) (trimStart : ℚ) : List (ℚ × ℚ) :=
  let step := max (positions.length / 100) 1
  ((List.range positions.length).filter (fun i => i % step = 0)).filterMap
    (fun i =>
      let p := positions.getD i ⟨0, 0, 0⟩
      let t := (p.timestampMs : ℚ) / 1000 - trimStart
      if t < 0 then none
      else
        let xPos := p.x * (videoWidth : ℚ) - (cursorSize : ℚ) / 2
        some (t, min (max xPos 0) ((videoWidth - cursorSize : ℤ) : ℚ)))

/-! ## Effect timeline compiler (`export_with_effects`, lines 790–905)

`effectZoomPart` is one effect's contribution to the global zoom
expression (`none` when the effect is skipped as outside the trim
range); `compiledZoom` is `zoom_combined`, i.e. `max(1, Σ parts)` (`1`
when no parts). -/

def smoothstep (u : ℚ) : ℚ := u ^ 2 * (3 - 2 * u)

/-- The easing preset table of lines 793–798. -/
def effectEase (easing : Option String) : ℚ :=
  match easing with
  | some "slow" => 1 / 2
  | some "quick" => 1 / 5
  | some "rapid" => 1 / 10
  | _ => 7 / 20

def effectZoomPart (eff : ZoomEffect) (trimStart duration : ℚ) (t : ℚ) : Option ℚ :=
  let ease := effectEase eff.easing
  let s := eff.startTime - trimStart
  let e := eff.endTime - trimStart
  let antS := max (s - ease) 0
  if e < 0 ∨ duration < antS then none
  else
    let so := e - ease
    let delta := eff.scale - 1
    let inner :=
      if antS ≤ t ∧ t ≤ e then
        if t < s then 1 + delta * smoothstep ((t - antS) / ease)
        else if t < so then eff.scale
        else 1 + delta * smoothstep ((e - t) / ease)
      else 1
    some (if antS ≤ t ∧ t ≤ e then inner else 0)

def compiledZoom (effects : List ZoomEffect) (trimStart duration : ℚ) (t : ℚ) : ℚ :=
  let parts := effects.filterMap (fun eff => effectZoomPart eff trimStart duration t)
  match parts with
  | [] => 1
  | _ => max 1 (parts.foldr (· + ·) 0)

/-- The concrete effect of testable property "Effect timing". -/
def quickEff : ZoomEffect :=
  { startTime := 2, endTime := 5, scale := 2, targetX := 1 / 2, targetY := 1 / 2,
    easing := some "quick" }

/-! ## Viewport pan simulator (`build_dynamic_pan_during_effect`,
lines 454–606) -/

/-- Result of `build_dynamic_pan_during_effect`: either a constant pan
expression or the two interpolation keyframe tables handed to
`build_interpolation_expr`. -/
inductive PanResult where
  | constPan (x y : ℚ)
  | keyframes (xs ys : List (ℚ × ℚ))
  deriving Repr, DecidableEq

/-- Model of `get_cursor_at_time_ms` (lines 513–538): `partition_point` on the
timestamp-sorted list (modelled as the length of the `<`-prefix),
with constant extrapolation at the ends and linear interpolation
between the bracketing samples. -/
def getCursorAtTimeMs (positions : List (ℕ × ℚ × ℚ)) (timeMs : ℕ) : Option (ℚ × ℚ) :=
  match positions with
  | [] => none
  | _ =>
    let idx := (positions.takeWhile (fun p => p.1 < timeMs)).length
    if idx = 0 then some (positions.headD (0, 0, 0)).2
    else if positions.length ≤ idx then some (positions.getLastD (0, 0, 0)).2
    else
      let before := positions.getD (idx - 1) (0, 0, 0)
      let after := positions.getD idx (0, 0, 0)
      let range := after.1 - before.1
      if range = 0 then some before.2
      else
        let frac := ((timeMs - before.1 : ℕ) : ℚ) / (range : ℚ)
        some (before.2.1 + (after.2.1 - before.2.1) * frac,
              before.2.2 + (after.2.2 - before.2.2) * frac)

/-- One internal 60 Hz tick of the smart-panning simulation
(lines 555–587): hold the centre during zoom-in and zoom-out, and in
the hold phase correct it proportionally to the dead-zone overshoot,
then re-clamp into `[minCenter, maxCenter]`. -/
def panSimUpdate (eps : List (ℕ × ℚ × ℚ))
    (effectStart zoomInEnd zoomOutStart trimStart innerHalf minCenter maxCenter : ℚ)
    (frame : ℕ) (cur : ℚ × ℚ) : ℚ × ℚ :=
  let t := effectStart + (frame : ℚ) / 60
  let timeMs := (⌊(t + trimStart) * 1000⌋).toNat
  if t < zoomInEnd then cur
  else if t < zoomOutStart then
    match getCursorAtTimeMs eps timeMs with
    | none => cur
    | some (cx, cy) =>
      let relX := cx - cur.1
      let relY := cy - cur.2
      let x1 := if innerHalf < |relX| then
          cur.1 + (if 0 < relX then (1 : ℚ) else -1) * (2 / 25) * (|relX| - innerHalf) * 2
        else cur.1
      let y1 := if innerHalf < |relY| then
          cur.2 + (if 0 < relY then (1 : ℚ) else -1) * (2 / 25) * (|relY| - innerHalf) * 2
        else cur.2
      (min (max x1 minCenter) maxCenter, min (max y1 minCenter) maxCenter)
  else cur

/-- The frame loop of lines 555–594: run the simulation for frames
`0..=totalFrames`, recording a keyframe every `sampleStep`-th frame and
at the final frame. -/
def panSim (eps : List (ℕ × ℚ × ℚ))
    (effectStart zoomInEnd zoomOutStart trimStart innerHalf minCenter maxCenter : ℚ)
    (totalFrames sampleStep : ℕ) (init : ℚ × ℚ) :
    List (ℚ × ℚ) × List (ℚ × ℚ) :=
  let result := (List.range (totalFrames + 1)).foldl
    (fun (acc : (ℚ × ℚ) × List (ℚ × ℚ) × List (ℚ × ℚ)) frame =>
      let cur := panSimUpdate eps effectStart zoomInEnd zoomOutStart trimStart
        innerHalf minCenter maxCenter frame acc.1
      let t := effectStart + (frame : ℚ) / 60
      if frame % sampleStep = 0 ∨ frame = totalFrames then
        (cur, acc.2.1 ++ [(t, cur.1)], acc.2.2 ++ [(t, cur.2)])
      else (cur, acc.2))
    (init, [], [])
  (result.2.1, result.2.2)

/-- Model of `build_dynamic_pan_during_effect` (lines 454–606), up to the final
serialization through `build_interpolation_expr`. -/
def buildDynamicPan (positions : List CursorFrame)
    (effectStart zoomInEnd zoomOutStart effectEnd initialX initialY trimStart
     zoomScale : ℚ) : PanResult :=
  if positions.isEmpty then .constPan initialX initialY
  else
    let minCenter := 1 / 2 / zoomScale
    let maxCenter := 1 - minCenter
    let initialXC := min (max initialX minCenter) maxCenter
    let initialYC := min (max initialY minCenter) maxCenter
    let innerMargin : ℚ := 3 / 20
    let effectDuration := effectEnd - effectStart
    let totalFrames := (⌈effectDuration * 60⌉).toNat
    let halfViewport := 1 / 2 / zoomScale
    let innerHalf := halfViewport * (1 - 2 * innerMargin)
    let effectStartMs := (⌊(effectStart + trimStart) * 1000⌋).toNat
    let effectEndMs := (⌊(effectEnd + trimStart) * 1000⌋).toNat
    let effectPositions := positions.filterMap (fun p =>
      if effectStartMs ≤ p.timestampMs ∧ p.timestampMs ≤ effectEndMs then
        some (p.timestampMs, p.x, p.y)
      else none)
    if effectPositions.isEmpty then .constPan initialXC initialYC
    else
      let sampleStep := max (totalFrames / 40) 1
      let r := panSim effectPositions effectStart zoomInEnd zoomOutStart trimStart
        innerHalf minCenter maxCenter totalFrames sampleStep (initialXC, initialYC)
      .keyframes r.1 r.2

/-! ## Lemmas: capture pacing -/

lemma runPacer_cons (st : PacerState) (a : ℚ) (l : List ℚ) :
    runPacer st (a :: l) = runPacer (pacerStep st a) l := rfl

lemma pacerStep_framesWritten (st : PacerState) (a : ℚ) :
    (pacerStep st a).framesWritten =
      max st.framesWritten ((⌈(a - st.recordingStart.getD a) * st.targetFps⌉).toNat) := rfl

lemma pacerStep_some (t0 : ℚ) (n : ℕ) (F a : ℚ) :
    pacerStep ⟨some t0, n, F⟩ a =
      ⟨some t0, max n ((⌈(a - t0) * F⌉).toNat), F⟩ := rfl

lemma runPacer_append (st : PacerState) (l l' : List ℚ) :
    runPacer st (l ++ l') = runPacer (runPacer st l) l' := by
  simp [runPacer, List.foldl_append]

/-- Full state of the pacer after processing the first `i + 1` frames of
a non-decreasing arrival sequence. -/
lemma runPacer_take_state (F : ℚ) (hF : 0 ≤ F) (ts : List ℚ)
    (hs : ts.Sorted (· ≤ ·)) :
    ∀ i (hi : i < ts.length),
      runPacer (initPacer F) (ts.take (i + 1)) =
        ⟨some ts[0], (⌈(ts[i] - ts[0]) * F⌉).toNat, F⟩ := by
  intro i
  induction i with
  | zero =>
    intro hi
    match ts, hi with
    | t :: rest, _ =>
      show pacerStep (initPacer F) t = _
      simp [pacerStep, initPacer]
  | succ i ih =>
    intro hi
    have hi' : i < ts.length := Nat.lt_of_succ_lt hi
    have htake : ts.take (i + 1 + 1) = ts.take (i + 1) ++ [ts[i + 1]] := by
      rw [List.take_succ, List.getElem?_eq_getElem hi]
      rfl
    have hmono : ts[i] ≤ ts[i + 1] := by
      have := List.pairwise_iff_getElem.mp hs i (i + 1) hi' hi (Nat.lt_succ_self i)
      exact this
    have hle : (⌈(ts[i] - ts[0]) * F⌉).toNat ≤ (⌈(ts[i + 1] - ts[0]) * F⌉).toNat :=
      Int.toNat_le_toNat (Int.ceil_le_ceil
        (mul_le_mul_of_nonneg_right (sub_le_sub_right hmono _) hF))
    rw [htake]
    show runPacer (initPacer F) (ts.take (i + 1) ++ [ts[i + 1]]) = _
    rw [runPacer, List.foldl_append]
    show pacerStep (runPacer (initPacer F) (ts.take (i + 1))) ts[i + 1] = _
    rw [ih hi', pacerStep_some, max_eq_right hle]

/-- **C1** â Pacing monotonicity: after processing the frame arriving at
elapsed time `e = ts[i] - ts[0]` (with non-decreasing arrival instants
`ts`), `frames_written = ceil(e * target_fps)`; and `frames_written`
never decreases from one processed frame to the next. -/
theorem C1_pacing_matches_ceil (F : ℚ) (hF : 0 ≤ F) (ts : List ℚ)
    (hs : ts.Sorted (· ≤ ·)) (i : ℕ) (hi : i < ts.length) :
    (runPacer (initPacer F) (ts.take (i + 1))).framesWritten =
      (⌈(ts[i] - ts[0]) * F⌉).toNat ∧
    ∀ k : ℕ, (runPacer (initPacer F) (ts.take k)).framesWritten ≤
      (runPacer (initPacer F) (ts.take (k + 1))).framesWritten := by
  constructor
  · rw [runPacer_take_state F hF ts hs i hi]
  · intro k
    rcases hk : ts[k]? with _ | a
    · rw [List.take_succ, hk]
      simp
    · rw [List.take_succ, hk, Option.toList_some, runPacer_append]
      show _ ≤ (pacerStep (runPacer (initPacer F) (ts.take k)) a).framesWritten
      rw [pacerStep_framesWritten]
      exact le_max_left _ _

theorem C1_pacing_matches_ceil_witness :
    0 ≤ (30 : ℚ) ∧
    (runPacer (initPacer 30) (List.take (1 + 1) [0, 1/10])).framesWritten = 3 := by
  refine ⟨by norm_num, ?_⟩
  have h := (C1_pacing_matches_ceil 30 (by norm_num) [0, 1/10]
    (by simp [List.Sorted]) 1 (by norm_num)).1
  rw [h]
  norm_num
  decide

/-- Claim C7 counterexample — processing the very first frame emits zero
output frames, not one: `recording_start := now`, so `elapsed = 0`,
`expected_frames = ceil(0 * F) = 0`, and the write loop does not run. -/
theorem C7_counterexample :
    pacerEmitted (initPacer 30) 5 = 0 ∧ (0 : ℕ) ≠ 1 := by
  constructor
  · simp [pacerEmitted, pacerStep, initPacer]
  · decide

/-- Claim C7 amended — processing the very first captured frame
establishes `recording_start` at the frame's arrival instant and emits
zero frames (its elapsed time is 0 and `ceil(0 * F) = 0`); output
catches up only at subsequent frames. -/
theorem C7_first_frame (st : PacerState) (now : ℚ)
    (h : st.recordingStart = none) :
    (pacerStep st now).recordingStart = some now ∧ pacerEmitted st now = 0 := by
  constructor
  · simp [pacerStep, h]
  · simp [pacerEmitted, pacerStep, h]

theorem C7_first_frame_witness :
    (pacerStep (initPacer 30) 5).recordingStart = some 5 ∧
    pacerEmitted (initPacer 30) 5 = 0 :=
  C7_first_frame (initPacer 30) 5 rfl

/-! ## Lemmas: stride-normalization copy -/

lemma writeSeg_some (dst : List ℕ) (start : ℕ) (seg : List ℕ)
    (h : start + seg.length ≤ dst.length) :
    writeSeg dst start seg =
      some (dst.take start ++ seg ++ dst.drop (start + seg.length)) := by
  simp [writeSeg, h]

lemma writeSeg_length (dst : List ℕ) (start : ℕ) (seg : List ℕ)
    (h : start + seg.length ≤ dst.length) :
    (dst.take start ++ seg ++ dst.drop (start + seg.length)).length = dst.length := by
  simp [List.length_take, List.length_drop]
  omega

lemma copyRows_succ (src : List ℕ) (rowPitch tightLen n : ℕ) (dst d : List ℕ)
    (hd : copyRows src rowPitch tightLen n dst = some d) :
    copyRows src rowPitch tightLen (n + 1) dst =
      if n * rowPitch + tightLen ≤ src.length then
        writeSeg d (n * tightLen) ((src.drop (n * rowPitch)).take tightLen)
      else some d := by
  simp [copyRows, hd]

/-- The row loop never faults and preserves the destination length,
as long as the loop's rows fit in the destination. -/
lemma copyRows_some (src : List ℕ) (rowPitch tightLen : ℕ) :
    ∀ (n : ℕ) (dst : List ℕ), n * tightLen ≤ dst.length →
      ∃ out, copyRows src rowPitch tightLen n dst = some out ∧
        out.length = dst.length := by
  intro n
  induction n with
  | zero => exact fun dst _ => ⟨dst, rfl, rfl⟩
  | succ n ih =>
    intro dst hle
    have h1 : n * tightLen ≤ dst.length := by
      refine le_trans ?_ hle
      exact Nat.mul_le_mul_right _ (Nat.le_succ n)
    obtain ⟨d, hd, hdl⟩ := ih dst h1
    rw [copyRows_succ src rowPitch tightLen n dst d hd]
    by_cases hg : n * rowPitch + tightLen ≤ src.length
    · rw [if_pos hg]
      have hseg : ((src.drop (n * rowPitch)).take tightLen).length = tightLen := by
        simp [List.length_take, List.length_drop]
        omega
      have hw : n * tightLen + ((src.drop (n * rowPitch)).take tightLen).length ≤
          d.length := by
        have h2 : (n + 1) * tightLen = n * tightLen + tightLen := by ring
        omega
      rw [writeSeg_some _ _ _ hw]
      exact ⟨_, rfl, by rw [writeSeg_length _ _ _ hw, hdl]⟩
    · rw [if_neg hg]
      exact ⟨d, rfl, hdl⟩

/-- Unfolding of `onFrameCopy` for a nonzero height. -/
lemma onFrameCopy_eq (src : List ℕ) (w h fw fh : ℕ) (lf : List ℕ) (hh : h ≠ 0) :
    onFrameCopy src w h fw fh lf =
      if src.length / h = w * 4 ∧ w = fw ∧ h = fh then
        (if fw * fh * 4 ≤ src.length then some ((src.drop 0).take (fw * fh * 4))
         else none)
      else
        copyRows src (src.length / h) (fw * 4) fh
          (if lf.length ≠ fw * fh * 4 then List.replicate (fw * fh * 4) 0 else lf) := by
  simp only [onFrameCopy, hh, if_false]

/-- Claim C10 — With a positive frame height, the per-frame copy never
accesses an index outside the source or destination buffers (the checked
model never returns `none`), the destination buffer has exactly
`frame_width * frame_height * 4` bytes, and the single-pass fast path
implies the source holds at least that many bytes. -/
theorem C10_copy_in_bounds (src : List ℕ) (width height fw fh : ℕ)
    (lastFrame : List ℕ) (hh : 0 < height) :
    (∃ out, onFrameCopy src width height fw fh lastFrame = some out ∧
        out.length = fw * fh * 4) ∧
    (fastPathCond src width height fw fh → fw * fh * 4 ≤ src.length) := by
  have hfast : fastPathCond src width height fw fh → fw * fh * 4 ≤ src.length := by
    rintro ⟨hpitch, hw, hht⟩
    calc fw * fh * 4 = width * 4 * height := by rw [← hw, ← hht]; ring
    _ = src.length / height * height := by rw [hpitch]
    _ ≤ src.length := Nat.div_mul_le_self _ _
  refine ⟨?_, hfast⟩
  rw [onFrameCopy_eq src width height fw fh lastFrame (Nat.pos_iff_ne_zero.mp hh)]
  by_cases hfc : src.length / height = width * 4 ∧ width = fw ∧ height = fh
  · rw [if_pos hfc, if_pos (hfast hfc)]
    refine ⟨_, rfl, ?_⟩
    have hs := hfast hfc
    simp [List.length_take, List.length_drop]
    omega
  · rw [if_neg hfc]
    have hdst : (if lastFrame.length ≠ fw * fh * 4 then
        List.replicate (fw * fh * 4) 0 else lastFrame).length = fw * fh * 4 := by
      by_cases hl : lastFrame.length ≠ fw * fh * 4
      · simp [hl]
      · simp only [if_neg hl]
        omega
    obtain ⟨out, hout, hlen⟩ := copyRows_some src (src.length / height) (fw * 4) fh _
      (by rw [hdst]; exact le_of_eq (by ring))
    exact ⟨out, hout, by rw [hlen, hdst]⟩

theorem C10_copy_in_bounds_witness :
    0 < 1 ∧ (onFrameCopy [1, 2, 3, 4] 1 1 1 1 []).isSome := by
  refine ⟨by decide, ?_⟩
  obtain ⟨out, hout, _⟩ := (C10_copy_in_bounds [1, 2, 3, 4] 1 1 1 1 [] (by decide)).1
  rw [hout]
  rfl

lemma flatten_length_uniform (L : List (List ℕ)) (k : ℕ)
    (h : ∀ r ∈ L, r.length = k) : L.flatten.length = L.length * k := by
  induction L with
  | nil => simp
  | cons a L ih =>
    rw [List.flatten_cons, List.length_append, h a (List.mem_cons_self a L),
      ih (fun r hr => h r (List.mem_cons_of_mem a hr)), List.length_cons]
    ring

lemma flatten_drop_uniform (L : List (List ℕ)) (k : ℕ)
    (h : ∀ r ∈ L, r.length = k) :
    ∀ i, L.flatten.drop (i * k) = (L.drop i).flatten := by
  intro i
  induction i generalizing L with
  | zero => simp
  | succ i ih =>
    cases L with
    | nil => simp
    | cons a L =>
      have ha : a.length = k := h a (List.mem_cons_self a L)
      have hik : (i + 1) * k = a.length + i * k := by rw [ha]; ring
      rw [List.flatten_cons, hik, ← List.drop_drop, List.drop_left' rfl,
        ih L (fun r hr => h r (List.mem_cons_of_mem a hr)), List.drop_succ_cons]

/-- Running the row loop over a uniformly padded source writes exactly
the unpadded rows, row by row, into the prefix of the destination. -/
lemma copyRows_build (rows : List (List ℕ)) (pad : List ℕ) (w : ℕ) (dst : List ℕ)
    (hrows : ∀ r ∈ rows, r.length = w * 4)
    (hdst : dst.length = rows.length * (w * 4)) :
    ∀ i, i ≤ rows.length →
      copyRows ((rows.map (fun r => r ++ pad)).flatten) (w * 4 + pad.length)
          (w * 4) i dst =
        some ((rows.take i).flatten ++ dst.drop (i * (w * 4))) := by
  intro i
  induction i with
  | zero => intro _; simp [copyRows]
  | succ i ih =>
    intro hi
    have hi' : i ≤ rows.length := Nat.le_of_succ_le hi
    have hilt : i < rows.length := hi
    have hmap : ∀ r ∈ rows.map (fun r => r ++ pad), r.length = w * 4 + pad.length := by
      intro r hr
      obtain ⟨s, hs, rfl⟩ := List.mem_map.mp hr
      simp [hrows s hs]
    have hsrc : ((rows.map (fun r => r ++ pad)).flatten).length =
        rows.length * (w * 4 + pad.length) := by
      rw [flatten_length_uniform _ _ hmap, List.length_map]
    rw [copyRows_succ _ _ _ _ _ _ (ih hi')]
    have hg : i * (w * 4 + pad.length) + w * 4 ≤
        ((rows.map (fun r => r ++ pad)).flatten).length := by
      rw [hsrc]
      have h1 : (i + 1) * (w * 4 + pad.length) ≤ rows.length * (w * 4 + pad.length) :=
        Nat.mul_le_mul_right _ hi
      have h2 : (i + 1) * (w * 4 + pad.length) =
          i * (w * 4 + pad.length) + (w * 4 + pad.length) := by ring
      omega
    rw [if_pos hg]
    have hseg : (((rows.map (fun r => r ++ pad)).flatten).drop
        (i * (w * 4 + pad.length))).take (w * 4) = rows[i] := by
      rw [flatten_drop_uniform _ _ hmap i, ← List.map_drop,
        List.drop_eq_getElem_cons hilt, List.map_cons, List.flatten_cons,
        List.append_assoc, List.take_left' (hrows _ (List.getElem_mem hilt))]
    rw [hseg]
    have htake_len : ((rows.take i).flatten).length = i * (w * 4) := by
      rw [flatten_length_uniform _ _ (fun r hr => hrows r (List.take_subset _ _ hr)),
        List.length_take, Nat.min_eq_left hi']
    have hw4le : i * (w * 4) + w * 4 ≤ rows.length * (w * 4) := by
      have h1 := Nat.mul_le_mul_right (w * 4) hi
      have h2 : (i + 1) * (w * 4) = i * (w * 4) + w * 4 := by ring
      omega
    have hwrite : i * (w * 4) + (rows[i]).length ≤
        ((rows.take i).flatten ++ dst.drop (i * (w * 4))).length := by
      rw [hrows _ (List.getElem_mem hilt), List.length_append, htake_len,
        List.length_drop, hdst]
      omega
    rw [writeSeg_some _ _ _ hwrite]
    congr 1
    rw [hrows _ (List.getElem_mem hilt)]
    have hpre : ((rows.take i).flatten ++ dst.drop (i * (w * 4))).take (i * (w * 4)) =
        (rows.take i).flatten := List.take_left' htake_len
    have hsuf : ((rows.take i).flatten ++ dst.drop (i * (w * 4))).drop
        (i * (w * 4) + w * 4) = dst.drop ((i + 1) * (w * 4)) := by
      rw [← List.drop_drop, List.drop_left' htake_len, List.drop_drop]
      congr 1
      ring
    rw [hpre, hsuf]
    have hsucc : rows.take (i + 1) = rows.take i ++ [rows[i]] := by
      rw [List.take_succ, List.getElem?_eq_getElem hilt]
      rfl
    rw [hsucc, List.flatten_append, List.flatten_cons, List.flatten_nil,
      List.append_nil, List.append_assoc]

/-- Claim C8 — Stride normalization: copying a tight frame
(`row_pitch = tight_pitch`) and copying the same pixel rows presented
with nonempty per-row padding (`row_pitch > tight_pitch`, row-by-row
path) produce the same, byte-identical tight buffer. -/
theorem C8_stride_equiv (rows : List (List ℕ)) (pad lf lf' : List ℕ) (w h : ℕ)
    (hh : 0 < h) (hp : 0 < pad.length)
    (hrows : ∀ r ∈ rows, r.length = w * 4) (hlen : rows.length = h) :
    onFrameCopy rows.flatten w h w h lf = some rows.flatten ∧
    onFrameCopy ((rows.map (fun r => r ++ pad)).flatten) w h w h lf' =
      some rows.flatten := by
  subst hlen
  have hne : rows.length ≠ 0 := Nat.pos_iff_ne_zero.mp hh
  constructor
  · rw [onFrameCopy_eq _ _ _ _ _ _ hne]
    have hflat : rows.flatten.length = rows.length * (w * 4) :=
      flatten_length_uniform _ _ hrows
    have hpitch : rows.flatten.length / rows.length = w * 4 := by
      rw [hflat]
      exact Nat.mul_div_cancel_left _ hh
    rw [if_pos ⟨hpitch, rfl, rfl⟩]
    have hsize : w * rows.length * 4 ≤ rows.flatten.length := by
      rw [hflat]
      exact le_of_eq (by ring)
    rw [if_pos hsize, List.drop_zero,
      List.take_of_length_le (by rw [hflat]; exact le_of_eq (by ring))]
  · rw [onFrameCopy_eq _ _ _ _ _ _ hne]
    have hmap : ∀ r ∈ rows.map (fun r => r ++ pad), r.length = w * 4 + pad.length := by
      intro r hr
      obtain ⟨s, hs, rfl⟩ := List.mem_map.mp hr
      simp [hrows s hs]
    have hsrc : ((rows.map (fun r => r ++ pad)).flatten).length =
        rows.length * (w * 4 + pad.length) := by
      rw [flatten_length_uniform _ _ hmap, List.length_map]
    have hpitch : ((rows.map (fun r => r ++ pad)).flatten).length / rows.length =
        w * 4 + pad.length := by
      rw [hsrc]
      exact Nat.mul_div_cancel_left _ hh
    rw [if_neg (by
      rintro ⟨h1, -, -⟩
      rw [hpitch] at h1
      omega)]
    rw [hpitch]
    have hdst : (if lf'.length ≠ w * rows.length * 4 then
        List.replicate (w * rows.length * 4) 0 else lf').length =
          rows.length * (w * 4) := by
      by_cases hl : lf'.length ≠ w * rows.length * 4
      · rw [if_pos hl, List.length_replicate]
        ring
      · rw [if_neg hl]
        push_neg at hl
        rw [hl]
        ring
    rw [copyRows_build rows pad w _ hrows hdst rows.length le_rfl,
      List.take_length, List.drop_eq_nil_of_le (le_of_eq hdst),
      List.append_nil]

theorem C8_stride_equiv_witness :
    0 < 2 ∧ 0 < ([9] : List ℕ).length ∧
    onFrameCopy [1, 2, 3, 4, 5, 6, 7, 8] 1 2 1 2 [] = some [1, 2, 3, 4, 5, 6, 7, 8] ∧
    onFrameCopy [1, 2, 3, 4, 9, 5, 6, 7, 8, 9] 1 2 1 2 [] =
      some [1, 2, 3, 4, 5, 6, 7, 8] := by
  have h := C8_stride_equiv [[1, 2, 3, 4], [5, 6, 7, 8]] [9] [] [] 1 2
    (by decide) (by decide) (by decide) (by decide)
  exact ⟨by decide, by decide, h.1, h.2⟩

/-! ## Lemmas: recording commands and gesture detection -/

/-- Claim C9 — `start_recording` while already recording fails with
"Already recording" and leaves every piece of recorder state unchanged;
`stop_recording` while not recording fails with "Not recording" and
changes nothing. -/
theorem C9_command_guards (g : RecorderGlobals) (nowMs : ℕ) (screen : ℕ × ℕ)
    (bounds : ℤ × ℤ × ℕ × ℕ) :
    (g.isRecording = true →
      startRecording g nowMs screen bounds = (Except.error "Already recording", g)) ∧
    (g.isRecording = false →
      stopRecording g = (Except.error "Not recording", g)) := by
  constructor
  · intro h
    simp [startRecording, h]
  · intro h
    simp [stopRecording, h]

/-- A concrete recorder state used to instantiate the gesture-detector
and command theorems. -/
def exG : RecorderGlobals :=
  { clickEvents := [], cursorPositions := [], recordingStartTime := some 0,
    lastClick := none, lastTwoClicks := [], lastZoomTrigger := none,
    lastCursorSample := none, screenSize := (1, 1),
    captureBounds := (0, 0, 1, 1), isRecording := true }

theorem C9_command_guards_witness :
    startRecording exG 5 (1920, 1080) (0, 0, 1920, 1080) =
      (Except.error "Already recording", exG) ∧
    stopRecording { exG with isRecording := false } =
      (Except.error "Not recording", { exG with isRecording := false }) :=
  ⟨(C9_command_guards exG 5 (1920, 1080) (0, 0, 1920, 1080)).1 rfl,
   (C9_command_guards { exG with isRecording := false } 5 (1920, 1080)
      (0, 0, 1920, 1080)).2 rfl⟩

/-! ## Lemmas: cursor-overlay keyframe count -/

lemma length_filterMap_of_isSome {α β : Type} (f : α → Option β) (l : List α)
    (h : ∀ a ∈ l, (f a).isSome) : (l.filterMap f).length = l.length := by
  induction l with
  | nil => rfl
  | cons a l ih =>
    rw [List.filterMap_cons]
    rcases hf : f a with _ | b
    · exact absurd (hf ▸ h a (List.mem_cons_self a l)) (by simp)
    · simp only [List.length_cons]
      rw [ih (fun x hx => h x (List.mem_cons_of_mem a hx))]

/-- With trim start 0, no cursor sample is dropped by the `t < 0` guard,
so the keyframe count equals the number of subsampled indices. -/
lemma cursorOverlayKeyframes_length (positions : List CursorFrame) (vW cs : ℤ) :
    (cursorOverlayKeyframes positions vW cs 0).length =
      ((List.range positions.length).filter
        (fun i => i % max (positions.length / 100) 1 = 0)).length := by
  unfold cursorOverlayKeyframes
  apply length_filterMap_of_isSome
  intro i _
  have hnn : ¬(((positions.getD i ⟨0, 0, 0⟩).timestampMs : ℚ) / 1000 - 0 < 0) := by
    push_neg
    rw [sub_zero]
    positivity
  rw [if_neg hnn]
  rfl

/-- The 101-sample cursor log of the C2 analysis (timestamps
0, 10, …, 1000 ms, all at the frame centre). -/
def densePositions : List CursorFrame :=
  (List.range 101).map (fun i => { timestampMs := 10 * i, x := 1 / 2, y := 1 / 2 })

/-- Claim C2 — a cursor log of 101 samples (length > 100) produces 101
cursor-overlay keyframes: the subsampling step `max(101/100, 1) = 1`
keeps every sample, violating the documented ≤ 100 cap. -/
theorem C2_keyframe_cap_exceeded :
    densePositions.length = 101 ∧
    (cursorOverlayKeyframes densePositions 1920 32 0).length = 101 := by
  have hlen : densePositions.length = 101 := by simp [densePositions]
  refine ⟨hlen, ?_⟩
  rw [cursorOverlayKeyframes_length, hlen]
  decide

/-- Claim C4 counterexample — three clicks at t = 0, 100, 200 ms at
normalized positions (0,0), (0.08,0), (0.04,0): the first two are 0.08
apart (not mutually within the 0.05 radius), yet the third click is
appended to the click log (it is within 0.05 of each of the previous
two, which is all the code checks), and the click history is cleared. -/
theorem C4_counterexample :
    (processClick (processClick (processClick exG 0 0 0) 100 (2/25) 0)
        200 (1/25) 0).clickEvents.length = 1 ∧
    (processClick (processClick (processClick exG 0 0 0) 100 (2/25) 0)
        200 (1/25) 0).lastTwoClicks = [] ∧
    ¬(((2 : ℚ)/25 - 0) ^ 2 + ((0 : ℚ) - 0) ^ 2 < 1/400) := by
  have h1 : processClick exG 0 0 0 =
      { exG with lastClick := some (0, 0, 0), lastTwoClicks := [(0, 0, 0)] } := by
    simp [processClick, exG, tripleCond, doubleCond, cooldownOk]
  have h2 : processClick
      ({ exG with
          lastClick := some (0, 0, 0)
          lastTwoClicks := [(0, 0, 0)] }) 100 (2/25) 0 =
      { exG with lastClick := some (100, 2/25, 0),
                 lastTwoClicks := [(0, 0, 0), (100, 2/25, 0)] } := by
    simp [processClick, exG, tripleCond, doubleCond, cooldownOk]
    norm_num
  have h3 : processClick
      ({ exG with
          lastClick := some (100, 2/25, 0)
          lastTwoClicks := [(0, 0, 0), (100, 2/25, 0)] }) 200 (1/25) 0 =
      { exG with lastClick := some (200, 1/25, 0), lastTwoClicks := [],
                 lastZoomTrigger := some 200,
                 clickEvents := [{ timestampMs := 200, x := 1/25, y := 0,
                                   isDoubleClick := true,
                                   isTripleClick := true }] } := by
    simp [processClick, exG, tripleCond, doubleCond, cooldownOk]
    norm_num
  rw [h1, h2, h3]
  exact ⟨rfl, rfl, by norm_num⟩

/-- Claim C4 amended — a left-button press inside the capture bounds is
appended to the click log iff it is strictly within 800 ms of the
earlier and 400 ms of the later remembered click and within distance
0.05 of each of them (the two remembered clicks are not compared with
each other), and at least 3000 ms have passed since the last accepted
trigger (or there was none); on acceptance the click-history buffer is
cleared; otherwise the click log is unchanged. -/
theorem C4_trigger_iff (g : RecorderGlobals) (now : ℕ) (mx my nx ny : ℚ)
    (hrec : g.isRecording = true)
    (hn : ((mx - (g.captureBounds.1 : ℚ)) / (g.captureBounds.2.2.1 : ℚ),
           (my - (g.captureBounds.2.1 : ℚ)) / (g.captureBounds.2.2.2 : ℚ)) = (nx, ny))
    (hin : ¬(nx < 0 ∨ 1 < nx ∨ ny < 0 ∨ 1 < ny)) :
    (tripleCond g.lastTwoClicks now nx ny = true ∧
        cooldownOk g.lastZoomTrigger now = true →
      (processClick g now mx my).clickEvents =
        g.clickEvents ++
          [{ timestampMs := (match g.recordingStartTime with
               | some s => now - s
               | none => 0),
             x := nx, y := ny,
             isDoubleClick := doubleCond g.lastClick now nx ny,
             isTripleClick := true }] ∧
      (processClick g now mx my).lastTwoClicks = []) ∧
    (¬(tripleCond g.lastTwoClicks now nx ny = true ∧
        cooldownOk g.lastZoomTrigger now = true) →
      (processClick g now mx my).clickEvents = g.clickEvents) := by
  rcases hcb : g.captureBounds with ⟨cx, cy, cw, ch⟩
  rw [hcb] at hn
  simp only [Prod.mk.injEq] at hn
  obtain ⟨hnx, hny⟩ := hn
  subst hnx
  subst hny
  constructor
  · rintro ⟨ht, hc⟩
    simp [processClick, hrec, hcb, hin, ht, hc]
  · intro hneg
    by_cases ht : tripleCond g.lastTwoClicks now
        ((mx - (cx : ℚ)) / (cw : ℚ)) ((my - (cy : ℚ)) / (ch : ℚ)) = true
    · have hc : ¬(cooldownOk g.lastZoomTrigger now = true) := fun h => hneg ⟨ht, h⟩
      rw [Bool.not_eq_true] at hc
      simp [processClick, hrec, hcb, hin, ht, hc]
    · rw [Bool.not_eq_true] at ht
      simp [processClick, hrec, hcb, hin, ht]

theorem C4_trigger_iff_witness :
    (processClick exG 0 0 0).clickEvents = exG.clickEvents := by
  have h := C4_trigger_iff exG 0 0 0 0 0 rfl (by norm_num [exG]) (by norm_num)
  exact h.2 (by simp [tripleCond, exG])

/-! ## Lemmas: interpolation expression vs. reference evaluator -/

lemma coreExpr_cons_cons (a b : ℚ × ℚ) (rest : List (ℚ × ℚ)) (hab : a.1 < b.1) :
    coreExpr (a :: b :: rest) =
      .ifLt b.1 (.seg a.2 (b.2 - a.2) a.1 (b.1 - a.1)) (coreExpr (b :: rest)) := by
  simp only [coreExpr, List.tail_cons, List.zip_cons_cons, List.foldr_cons,
    List.getLastD_cons]
  rw [segStep, if_neg (by push_neg; linarith : ¬(b.1 - a.1 ≤ 0))]

lemma coreExpr_evalAt (kfs : List (ℚ × ℚ)) :
    ∀ t : ℚ, kfs.Chain' (fun a b => a.1 < b.1) →
      (∀ p : ℚ × ℚ, kfs.head? = some p → p.1 ≤ t) →
      (coreExpr kfs).evalAt t = specInterp kfs t := by
  induction kfs with
  | nil =>
    intro t _ _
    simp [coreExpr, specInterp, FExpr.evalAt]
  | cons a l ih =>
    intro t hch hhd
    have ha : a.1 ≤ t := hhd a rfl
    cases l with
    | nil => simp [coreExpr, specInterp, FExpr.evalAt]
    | cons b rest =>
      have hab : a.1 < b.1 := (List.chain'_cons.mp hch).1
      have hch' : (b :: rest).Chain' (fun p q => p.1 < q.1) :=
        (List.chain'_cons.mp hch).2
      rw [coreExpr_cons_cons a b rest hab]
      simp only [FExpr.evalAt]
      by_cases hb : t < b.1
      · rw [if_pos hb]
        have h1 : (0 : ℚ) ≤ (t - a.1) / (b.1 - a.1) :=
          div_nonneg (by linarith) (by linarith)
        have h2 : (t - a.1) / (b.1 - a.1) ≤ 1 := by
          rw [div_le_one (by linarith)]
          linarith
        rw [max_eq_right h1, min_eq_right h2]
        simp only [specInterp]
        rw [if_neg (not_lt.mpr ha), if_pos hb]
      · rw [if_neg hb]
        rw [ih t hch' (fun p hp => by
          rw [List.head?_cons, Option.some.injEq] at hp
          rw [← hp]
          exact not_lt.mp hb)]
        simp only [specInterp]
        rw [if_neg (not_lt.mpr ha), if_neg hb]

/-- Claim C5 — the expression emitted by `build_interpolation_expr`,
evaluated with ffmpeg's semantics, agrees everywhere with the reference
sorted-keyframe-table interpolation evaluator: first value before the
first keyframe, last value at or after the last keyframe, linear
interpolation inside each segment. -/
theorem C5_expr_matches_reference (kfs : List (ℚ × ℚ)) (hne : kfs ≠ [])
    (hsort : kfs.Chain' (fun a b => a.1 < b.1)) (t : ℚ) :
    (buildInterpolationExpr kfs).evalAt t = specInterp kfs t := by
  match kfs, hne with
  | [k], _ => simp [buildInterpolationExpr, specInterp, FExpr.evalAt]
  | k0 :: k1 :: rest, _ =>
    show (FExpr.ifLt k0.1 (.const k0.2) (coreExpr (k0 :: k1 :: rest))).evalAt t = _
    simp only [FExpr.evalAt]
    by_cases h0 : t < k0.1
    · rw [if_pos h0]
      simp only [specInterp]
      rw [if_pos h0]
    · rw [if_neg h0]
      exact coreExpr_evalAt (k0 :: k1 :: rest) t hsort
        (fun p hp => by
          rw [List.head?_cons, Option.some.injEq] at hp
          rw [← hp]
          exact not_lt.mp h0)

theorem C5_expr_matches_reference_witness :
    [((1 : ℚ), (10 : ℚ)), (2, 20)] ≠ [] ∧
    (buildInterpolationExpr [((1 : ℚ), (10 : ℚ)), (2, 20)]).evalAt (3/2) =
      specInterp [((1 : ℚ), (10 : ℚ)), (2, 20)] (3/2) :=
  ⟨by simp,
   C5_expr_matches_reference [((1 : ℚ), (10 : ℚ)), (2, 20)] (by simp)
     (by simp [List.chain'_cons]) (3/2)⟩

/-! ## Lemmas: effect-timeline zoom expression -/

lemma smoothstep_nonneg {u : ℚ} (_h0 : 0 ≤ u) (h1 : u ≤ 1) : 0 ≤ smoothstep u := by
  unfold smoothstep
  have := sq_nonneg u
  nlinarith

lemma smoothstep_le_one {u : ℚ} (h0 : 0 ≤ u) (_h1 : u ≤ 1) : smoothstep u ≤ 1 := by
  unfold smoothstep
  nlinarith [mul_nonneg (sq_nonneg (1 - u)) (by linarith : (0 : ℚ) ≤ 1 + 2 * u)]

lemma smoothstep_mono {a b : ℚ} (h0 : 0 ≤ a) (hab : a ≤ b) (h1 : b ≤ 1) :
    smoothstep a ≤ smoothstep b := by
  have hb0 : 0 ≤ b := le_trans h0 hab
  have ha1 : a ≤ 1 := le_trans hab h1
  unfold smoothstep
  nlinarith [mul_nonneg (sub_nonneg.mpr hab) (mul_nonneg h0 (sub_nonneg.mpr ha1)),
    mul_nonneg (sub_nonneg.mpr hab) (mul_nonneg hb0 (sub_nonneg.mpr h1)),
    mul_nonneg (sub_nonneg.mpr hab)
      (mul_nonneg (add_nonneg h0 hb0) (by linarith : (0 : ℚ) ≤ 2 - (a + b)))]

lemma quickPart_eq (t : ℚ) :
    effectZoomPart quickEff 0 10 t =
      some (if 9/5 ≤ t ∧ t ≤ 5 then
        (if t < 2 then 1 + smoothstep ((t - 9/5) / (1/5))
         else if t < 24/5 then 2
         else 1 + smoothstep ((5 - t) / (1/5)))
      else 0) := by
  unfold effectZoomPart quickEff effectEase
  norm_num
  by_cases h : 9/5 ≤ t ∧ t ≤ 5 <;> simp [h]

/-- The compiled global scale expression for the single "quick" effect
`[2, 5] × 2.0` at trim start 0 over a 10 s timeline, in closed form. -/
lemma quickZoom_eq (t : ℚ) :
    compiledZoom [quickEff] 0 10 t =
      if 9/5 ≤ t ∧ t ≤ 5 then
        (if t < 2 then 1 + smoothstep ((t - 9/5) / (1/5))
         else if t < 24/5 then 2
         else 1 + smoothstep ((5 - t) / (1/5)))
      else 1 := by
  unfold compiledZoom
  rw [List.filterMap_cons]
  rw [quickPart_eq]
  simp only [List.filterMap_nil, List.foldr_cons, List.foldr_nil, add_zero]
  by_cases hbt : 9/5 ≤ t ∧ t ≤ 5
  · rw [if_pos hbt, if_pos hbt]
    by_cases h2 : t < 2
    · rw [if_pos h2]
      have e1 : (t - 9/5) / (1/5) = 5 * t - 9 := by ring
      rw [e1]
      have := smoothstep_nonneg (by linarith [hbt.1] : (0 : ℚ) ≤ 5 * t - 9)
        (by linarith : 5 * t - 9 ≤ 1)
      exact max_eq_right (by linarith)
    · rw [if_neg h2]
      by_cases h48 : t < 24/5
      · rw [if_pos h48]
        exact max_eq_right (by norm_num)
      · rw [if_neg h48]
        have e1 : (5 - t) / (1/5) = 25 - 5 * t := by ring
        rw [e1]
        have := smoothstep_nonneg (by linarith [hbt.2] : (0 : ℚ) ≤ 25 - 5 * t)
          (by linarith [not_lt.mp h48] : 25 - 5 * t ≤ 1)
        exact max_eq_right (by linarith)
  · rw [if_neg hbt, if_neg hbt]
    norm_num

/-- Claim C3 counterexample — the compiled scale at `t = 1.9` is `1.5`,
not `1.0` as the claim states: `1.9` lies inside the anticipation
(zoom-in) phase `[1.8, 2.0]`, midway, so the smoothstep gives `0.5`. -/
theorem C3_counterexample :
    compiledZoom [quickEff] 0 10 (19/10) = 3/2 ∧ ((3 : ℚ)/2) ≠ 1 := by
  constructor
  · rw [quickZoom_eq]
    norm_num [smoothstep]
  · norm_num

/-- Claim C3 amended — for the quick effect the compiled scale satisfies
`scale(1.8) = 1`, `scale(1.9) = 1.5`, `scale(2) = 2`, `scale(4.8) = 2`,
`scale(5) = 1`, rises monotonically through the smoothstep on the
zoom-in phase `[1.8, 2]` and falls monotonically on the zoom-out phase
`[4.8, 5]`. -/
theorem C3_effect_timing :
    compiledZoom [quickEff] 0 10 (9/5) = 1 ∧
    compiledZoom [quickEff] 0 10 (19/10) = 3/2 ∧
    compiledZoom [quickEff] 0 10 2 = 2 ∧
    compiledZoom [quickEff] 0 10 (24/5) = 2 ∧
    compiledZoom [quickEff] 0 10 5 = 1 ∧
    (∀ t1 t2 : ℚ, 9/5 ≤ t1 → t1 ≤ t2 → t2 ≤ 2 →
      compiledZoom [quickEff] 0 10 t1 ≤ compiledZoom [quickEff] 0 10 t2) ∧
    (∀ t1 t2 : ℚ, 24/5 ≤ t1 → t1 ≤ t2 → t2 ≤ 5 →
      compiledZoom [quickEff] 0 10 t2 ≤ compiledZoom [quickEff] 0 10 t1) := by
  refine ⟨?_, ?_, ?_, ?_, ?_, ?_, ?_⟩
  · rw [quickZoom_eq]
    norm_num [smoothstep]
  · rw [quickZoom_eq]
    norm_num [smoothstep]
  · rw [quickZoom_eq]
    norm_num
  · rw [quickZoom_eq]
    norm_num [smoothstep]
  · rw [quickZoom_eq]
    norm_num [smoothstep]
  · intro t1 t2 ht1 h12 h22
    rw [quickZoom_eq, quickZoom_eq]
    rw [if_pos (⟨ht1, by linarith⟩ : 9/5 ≤ t1 ∧ t1 ≤ 5),
      if_pos (⟨by linarith, by linarith⟩ : 9/5 ≤ t2 ∧ t2 ≤ 5)]
    by_cases h2 : t2 < 2
    · rw [if_pos (lt_of_le_of_lt h12 h2), if_pos h2]
      have e1 : (t1 - 9/5) / (1/5) = 5 * t1 - 9 := by ring
      have e2 : (t2 - 9/5) / (1/5) = 5 * t2 - 9 := by ring
      rw [e1, e2]
      have := smoothstep_mono (a := 5 * t1 - 9) (b := 5 * t2 - 9)
        (by linarith) (by linarith) (by linarith)
      linarith
    · rw [if_neg h2, if_pos (by linarith [not_lt.mp h2] : t2 < 24/5)]
      by_cases h2' : t1 < 2
      · rw [if_pos h2']
        have e1 : (t1 - 9/5) / (1/5) = 5 * t1 - 9 := by ring
        rw [e1]
        have := smoothstep_le_one (by linarith : (0 : ℚ) ≤ 5 * t1 - 9)
          (by linarith : 5 * t1 - 9 ≤ 1)
        linarith
      · rw [if_neg h2', if_pos (by linarith [not_lt.mp h2'] : t1 < 24/5)]
  · intro t1 t2 ht1 h12 h25
    rw [quickZoom_eq, quickZoom_eq]
    rw [if_pos (⟨by linarith, by linarith⟩ : 9/5 ≤ t1 ∧ t1 ≤ 5),
      if_pos (⟨by linarith, h25⟩ : 9/5 ≤ t2 ∧ t2 ≤ 5)]
    rw [if_neg (by push_neg; linarith : ¬(t1 < 2)),
      if_neg (by push_neg; linarith : ¬(t2 < 2)),
      if_neg (by push_neg; linarith : ¬(t1 < 24/5)),
      if_neg (by push_neg; linarith : ¬(t2 < 24/5))]
    have e1 : (5 - t1) / (1/5) = 25 - 5 * t1 := by ring
    have e2 : (5 - t2) / (1/5) = 25 - 5 * t2 := by ring
    rw [e1, e2]
    have := smoothstep_mono (a := 25 - 5 * t2) (b := 25 - 5 * t1)
      (by linarith) (by linarith) (by linarith)
    linarith

theorem C3_effect_timing_witness :
    compiledZoom [quickEff] 0 10 (9/5) ≤ compiledZoom [quickEff] 0 10 (19/10) :=
  C3_effect_timing.2.2.2.2.2.1 (9/5) (19/10) (by norm_num) (by norm_num) (by norm_num)

/-- Claim C6 — for an entirely empty cursor log,
`build_dynamic_pan_during_effect` returns the raw initial target as the
constant pan value without clamping it: with zoom scale 2 and initial
target (0.9, 0.9) the emitted viewport centre is 0.9, outside the
claimed range `[0.25, 0.75]` (the clamped early-return of line 509 is
reached only when the log is nonempty but has no samples in the effect
window). -/
theorem C6_unclamped_empty_log :
    buildDynamicPan [] (9/5) 2 (24/5) 5 (9/10) (9/10) 0 2 =
      PanResult.constPan (9/10) (9/10) ∧
    (1 - 1/2/2 = (3 : ℚ)/4 ∧ (3 : ℚ)/4 < 9/10) := by
  constructor
  · simp [buildDynamicPan]
  · norm_num
